import Mathlib

/-!
# Verification of the silver-layer cleaning rules of the SQL data-warehouse ETL

This development shallowly embeds the Python ETL pipeline
(`scripts/python/silver.py`, `scripts/python/init_db.py`,
`scripts/python/utils/psql_commands.py`) in Lean 4 and proves or refutes the
specified properties of its cleaning rules.

Modelling conventions:
* Database / pandas numeric cells are modelled exactly.  Columns that hold
  Python/NumPy floating-point data (the sales columns, which participate in
  true division) are modelled by `PyF`: rationals extended with `nan`, `+inf`
  and `-inf`, with the IEEE-754 comparison and propagation rules used by
  NumPy scalars (no rounding is modelled; none of the verified properties
  depends on rounding, only on equality of identically recomputed products,
  and IEEE multiplication of identical operands is deterministic).  Signed
  zeros are collapsed to `0`.
* `NULL` / `NaN` / `NaT` cells of typed columns are modelled by `Option`.
* Dates and timestamps are modelled as integer day numbers (`ℤ`) where only
  their ordering and day-arithmetic matter, and by a concrete
  year/month/day structure where calendar validity matters.
* Python strings are modelled by their sequences of code points,
  `PyStr := List Char` (pandas `.str[...]` slicing and Python string
  operations are code-point based); stripping and upper-casing are modelled
  for the ASCII range the data lives in.
-/

deriving instance DecidableEq for Except

/-! ## Python strings -/

/-- A Python string, as its sequence of code points. -/
abbrev PyStr := List Char

/-- The ASCII whitespace stripped by Python's `str.strip()`:
`\t \n \v \f \r` and the space. -/
def pyIsSpace (c : Char) : Bool := (9 ≤ c.toNat && c.toNat ≤ 13) || c == ' '

/-- Python `str.strip()` (ASCII whitespace). -/
def pyStrip (s : PyStr) : PyStr :=
  ((s.dropWhile pyIsSpace).reverse.dropWhile pyIsSpace).reverse

/-- Python `str.upper()` (ASCII range, which covers the data). -/
def pyUpper (s : PyStr) : PyStr := s.map Char.toUpper

/-- Whether the first character list is a prefix of the second. -/
def charsPrefixOf : List Char → List Char → Bool
  | [], _ => true
  | _ :: _, [] => false
  | a :: as, b :: bs => a == b && charsPrefixOf as bs

/-- Whether the first character list occurs contiguously in the second
(Python's substring test `needle in hay`). -/
def charsSubstrOf (n : List Char) : List Char → Bool
  | [] => n.isEmpty
  | c :: cs => charsPrefixOf n (c :: cs) || charsSubstrOf n cs

/-- Python `str(x)` on a nullable cell as performed by `astype(str)`: a
missing entry is rendered as the *string* `"None"` (`str(None)`; a float
`NaN` would render `"nan"` — either way a non-empty ordinary string, which
is what matters below). -/
def pyStr : Option PyStr → PyStr
  | none => "None".toList
  | some s => s

/-! ## Python/NumPy float scalars (exact, with nan and infinities) -/

/-- A Python/NumPy float value: a rational number, `+inf`, `-inf`, or `nan`.
Signed zeros are collapsed. -/
inductive PyF where
  | num (q : ℚ)
  | pinf
  | ninf
  | nan
deriving DecidableEq, Repr

namespace PyF

/-- IEEE multiplication (as performed by `*` on NumPy scalars). -/
def mul : PyF → PyF → PyF
  | nan, _ => nan
  | num _, nan => nan
  | pinf, nan => nan
  | ninf, nan => nan
  | num a, num b => num (a * b)
  | num a, pinf => if 0 < a then pinf else if a < 0 then ninf else nan
  | num a, ninf => if 0 < a then ninf else if a < 0 then pinf else nan
  | pinf, num b => if 0 < b then pinf else if b < 0 then ninf else nan
  | ninf, num b => if 0 < b then ninf else if b < 0 then pinf else nan
  | pinf, pinf => pinf
  | pinf, ninf => ninf
  | ninf, pinf => ninf
  | ninf, ninf => pinf

/-- IEEE true division (Python `/` on NumPy scalars: division by zero yields
a signed infinity or `nan`, it does not raise). -/
def div : PyF → PyF → PyF
  | nan, _ => nan
  | num _, nan => nan
  | pinf, nan => nan
  | ninf, nan => nan
  | num a, num b =>
      if b ≠ 0 then num (a / b)
      else if 0 < a then pinf else if a < 0 then ninf else nan
  | num _, pinf => num 0
  | num _, ninf => num 0
  | pinf, num b => if 0 ≤ b then pinf else ninf
  | ninf, num b => if 0 ≤ b then ninf else pinf
  | pinf, pinf => nan
  | pinf, ninf => nan
  | ninf, pinf => nan
  | ninf, ninf => nan

/-- IEEE `<` (any comparison with `nan` is false). -/
def lt : PyF → PyF → Bool
  | nan, _ => false
  | num _, nan => false
  | pinf, nan => false
  | ninf, nan => false
  | num a, num b => a < b
  | num _, pinf => true
  | num _, ninf => false
  | pinf, num _ => false
  | ninf, num _ => true
  | pinf, pinf => false
  | pinf, ninf => false
  | ninf, pinf => true
  | ninf, ninf => false

/-- IEEE `==` (`nan` is equal to nothing, including itself). -/
def beq : PyF → PyF → Bool
  | nan, _ => false
  | num _, nan => false
  | pinf, nan => false
  | ninf, nan => false
  | num a, num b => a == b
  | pinf, pinf => true
  | ninf, ninf => true
  | num _, pinf => false
  | num _, ninf => false
  | pinf, num _ => false
  | pinf, ninf => false
  | ninf, num _ => false
  | ninf, pinf => false

/-- IEEE `!=`; for floats Python's `!=` is the negation of `==`. -/
def ne (x y : PyF) : Bool := !(beq x y)

/-- `pd.isnull` on a float cell: true exactly for `nan` (pandas represents a
missing value of a float column as `NaN`). -/
def isnull : PyF → Bool
  | nan => true
  | _ => false

/-- Python `abs`. -/
def abs : PyF → PyF
  | nan => nan
  | pinf => pinf
  | ninf => pinf
  | num a => num |a|

end PyF

/-! ## Sales-detail rows and the sales/price business rule
(`silver.py`, `sales_and_price_to_business_rule`) -/

/-- The three numeric cells of a `crm_sales_details` row that the business
rule reads and writes. -/
structure SalesRow where
  sls_sales : PyF
  sls_quantity : PyF
  sls_price : PyF
deriving DecidableEq, Repr

/-- Step (a) of `sales_and_price_to_business_rule`: a null price is
recomputed as `sales / quantity`. -/
def businessRuleStepA (row : SalesRow) : SalesRow :=
  if row.sls_price.isnull then
    { row with sls_price := row.sls_sales.div row.sls_quantity }
  else row

/-- Step (b) of `sales_and_price_to_business_rule`: a negative price is
replaced by its absolute value, and the sales cell is recomputed from the
updated price. -/
def businessRuleStepB (row : SalesRow) : SalesRow :=
  if row.sls_price.lt (PyF.num 0) then
    let p := row.sls_price.abs
    { row with sls_price := p, sls_sales := p.mul row.sls_quantity }
  else row

/-- Step (c) of `sales_and_price_to_business_rule`: if the sales cell
differs from `price * quantity` it is recomputed as `quantity * price`. -/
def businessRuleStepC (row : SalesRow) : SalesRow :=
  if row.sls_sales.ne (row.sls_price.mul row.sls_quantity) then
    { row with sls_sales := row.sls_quantity.mul row.sls_price }
  else row

/-- `silver.py`, `sales_and_price_to_business_rule`: its three sequential
`if` statements, in order. -/
def sales_and_price_to_business_rule (row : SalesRow) : SalesRow :=
  businessRuleStepC (businessRuleStepB (businessRuleStepA row))

/-! ## Calendar dates and the YYYYMMDD decoder
(`silver.py`, `map_crm_sales_details_date_columns`) -/

/-- A calendar date (year, month, day). -/
structure Date where
  year : ℕ
  month : ℕ
  day : ℕ
deriving DecidableEq, Repr

/-- Gregorian leap-year test, as used by Python's `datetime`. -/
def isLeapYear (y : ℕ) : Bool := (y % 4 == 0 && y % 100 != 0) || y % 400 == 0

/-- Number of days of month `m` in year `y` (Python `datetime` calendar). -/
def daysInMonth (y m : ℕ) : ℕ :=
  if m = 2 then (if isLeapYear y then 29 else 28)
  else if m = 4 ∨ m = 6 ∨ m = 9 ∨ m = 11 then 30
  else 31

/-- Length of `str(x)` for a Python integer `x`: the number of decimal
digits, plus one for the sign of a negative number. -/
def pyIntStrLen (x : ℤ) : ℕ :=
  (Nat.toDigits 10 x.natAbs).length + (if x < 0 then 1 else 0)

/-- `silver.py`, `map_crm_sales_details_date_columns`, translated line by
line.  The guard (`x <= 0 or len(str(x)) != 8 or x > 20500101 or
x < 19000101`) returns `None` (modelled `.ok none`).  Past the guard the
function calls `datetime.strptime(str(x), "%Y%m%d")`, which *raises*
`ValueError` when the 8 digits do not form a valid calendar date
(modelled `.error ()`), and otherwise returns the decoded date. -/
def map_crm_sales_details_date_columns (x : ℤ) : Except Unit (Option Date) :=
  if x ≤ 0 ∨ pyIntStrLen x ≠ 8 ∨ x > 20500101 ∨ x < 19000101 then .ok none
  else
    let n := x.toNat
    let y := n / 10000
    let m := n / 100 % 100
    let d := n % 100
    if 1 ≤ m ∧ m ≤ 12 ∧ 1 ≤ d ∧ d ≤ daysInMonth y m then .ok (some ⟨y, m, d⟩)
    else .error ()

/-! ## Cleaning of `crm_sales_details`
(`silver.py`, `clean_and_load_crm_sales_details`) -/

/-- A raw `crm_sales_details` row as extracted from bronze: the three date
columns hold YYYYMMDD integers, the three numeric columns hold floats. -/
structure SalesDetailsRowIn where
  sls_ord_num : PyStr
  sls_prd_key : PyStr
  sls_cust_id : Option ℤ
  sls_order_dt : ℤ
  sls_ship_dt : ℤ
  sls_due_dt : ℤ
  sls_sales : PyF
  sls_quantity : PyF
  sls_price : PyF
deriving DecidableEq, Repr

/-- A cleaned `crm_sales_details` row: decoded (nullable) dates and the
numeric cells rewritten by the business rule. -/
structure SalesDetailsRowOut where
  sls_ord_num : PyStr
  sls_prd_key : PyStr
  sls_cust_id : Option ℤ
  sls_order_dt : Option Date
  sls_ship_dt : Option Date
  sls_due_dt : Option Date
  sls_sales : PyF
  sls_quantity : PyF
  sls_price : PyF
deriving DecidableEq, Repr

/-- `silver.py`, `clean_and_load_crm_sales_details`: decode the three date
columns with `map_crm_sales_details_date_columns`, then apply
`sales_and_price_to_business_rule` to every row.  An exception anywhere
(a `ValueError` escaping the date decoder) aborts the whole cleaning
(`.error`), mirroring the `try`/`raise` wrapper of the Python function. -/
def clean_crm_sales_details (rows : List SalesDetailsRowIn) :
    Except Unit (List SalesDetailsRowOut) :=
  rows.mapM fun r => do
    let od ← map_crm_sales_details_date_columns r.sls_order_dt
    let sd ← map_crm_sales_details_date_columns r.sls_ship_dt
    let dd ← map_crm_sales_details_date_columns r.sls_due_dt
    let nums := sales_and_price_to_business_rule
      ⟨r.sls_sales, r.sls_quantity, r.sls_price⟩
    pure ⟨r.sls_ord_num, r.sls_prd_key, r.sls_cust_id, od, sd, dd,
      nums.sls_sales, nums.sls_quantity, nums.sls_price⟩

/-! ## Cleaning of `crm_prd_info`
(`silver.py`, `clean_and_load_crm_prd_info`) -/

/-- A raw `crm_prd_info` row as extracted from bronze, after the type casts
at the top of `clean_and_load_crm_prd_info` (`Int64` id, numeric cost with
non-numeric coerced to null, datetime start date with unparseable coerced
to `NaT`).  The bronze `prd_end_dt` column is not modelled because the
cleaning overwrites it wholesale. -/
structure PrdRowIn where
  prd_id : Option ℤ
  prd_key : PyStr
  prd_nm : PyStr
  prd_cost : Option ℚ
  prd_line : Option PyStr
  prd_start_dt : Option ℤ
deriving DecidableEq, Repr

/-- A cleaned `crm_prd_info` row. -/
structure PrdRowOut where
  prd_id : Option ℤ
  cat_id : PyStr
  prd_key : PyStr
  prd_nm : PyStr
  prd_cost : Option ℚ
  prd_line : PyStr
  prd_start_dt : Option ℤ
  prd_end_dt : Option ℤ
deriving DecidableEq, Repr

/-- The start date contributed to a row by
`df.groupby("prd_key")["prd_start_dt"].shift(-1)`: the (possibly null)
start date of the *next row in input order* with the same raw product key,
or null if the row is the last of its key. -/
def nextStartSameKey (k : PyStr) (rest : List PrdRowIn) : Option ℤ :=
  (rest.find? (fun s => s.prd_key == k)).bind (·.prd_start_dt)

/-- The end-date derivation of `clean_and_load_crm_prd_info`: each row is
paired with `shift(-1)` of its group minus one day (`NaT` minus a
`Timedelta` is `NaT`, hence the `Option.map`). -/
def deriveEndDates : List PrdRowIn → List (PrdRowIn × Option ℤ)
  | [] => []
  | r :: rs =>
      (r, (nextStartSameKey r.prd_key rs).map (· - 1)) :: deriveEndDates rs

/-- `silver.py`, `map_prd_line_category` (`None` yields `"N/A"`; otherwise
`str(x).strip().upper()` is matched against the four codes; in the
deployed frame a missing entry of the `string`-typed column also ends in
the default arm, as `str(pd.NA).strip().upper() = "<NA>"` matches no
case). -/
def map_prd_line_category (x : Option PyStr) : PyStr :=
  match x with
  | none => "N/A".toList
  | some s =>
      let u := pyUpper (pyStrip s)
      if u == "M".toList then "Mountain".toList
      else if u == "R".toList then "Road".toList
      else if u == "S".toList then "Other Sales".toList
      else if u == "T".toList then "Touring".toList
      else "N/A".toList

/-- `df["prd_cost"].mean()`: pandas skips null entries; the mean of an
all-null column is itself null (`NaN`). -/
def pdMean (xs : List (Option ℚ)) : Option ℚ :=
  let vs := xs.filterMap id
  if vs.length = 0 then none else some (vs.sum / vs.length)

/-- Modelled from the spec's words, for comparison with the code: the mean
of the *non-negative*, non-null costs of the batch. -/
def specMeanNonneg (xs : List (Option ℚ)) : Option ℚ :=
  let vs := (xs.filterMap id).filter (fun v => 0 ≤ v)
  if vs.length = 0 then none else some (vs.sum / vs.length)

/-- The cost imputation lambda of `clean_and_load_crm_prd_info`:
`prd_cost_mean if (x < 0 or pd.isnull(x)) else x`. -/
def imputeCost (m : Option ℚ) (x : Option ℚ) : Option ℚ :=
  match x with
  | none => m
  | some v => if v < 0 then m else some v

/-- `df["prd_key"].str[:5].str.replace("-", "_")`. -/
def derive_cat_id (k : PyStr) : PyStr :=
  (k.take 5).map (fun c => if c = '-' then '_' else c)

/-- `df["prd_key"].str[6:]`. -/
def trim_prd_key (k : PyStr) : PyStr := k.drop 6

/-- `silver.py`, `clean_and_load_crm_prd_info`, after the type casts: the
end-date derivation runs first (on the raw keys), then `cat_id` is derived
and the key is sliced, then costs are imputed with the whole-batch mean,
then the product line is mapped. -/
def clean_crm_prd_info (rows : List PrdRowIn) : List PrdRowOut :=
  let m := pdMean (rows.map (·.prd_cost))
  (deriveEndDates rows).map fun p =>
    { prd_id := p.1.prd_id
      cat_id := derive_cat_id p.1.prd_key
      prd_key := trim_prd_key p.1.prd_key
      prd_nm := p.1.prd_nm
      prd_cost := imputeCost m p.1.prd_cost
      prd_line := map_prd_line_category p.1.prd_line
      prd_start_dt := p.1.prd_start_dt
      prd_end_dt := p.2 }

/-- Minimum of a list of integers (`none` on the empty list). -/
def listMin? : List ℤ → Option ℤ
  | [] => none
  | x :: xs => match listMin? xs with | none => some x | some m => some (min x m)

/-- Modelled from the spec's words, for comparison with the code: the start
dates, strictly later than `t` (the start of row `r`), of rows sharing
`r`'s product key. -/
def specLaterStarts (r : PrdRowIn) (rows : List PrdRowIn) (t : ℤ) : List ℤ :=
  rows.filterMap fun s =>
    if s.prd_key == r.prd_key then
      s.prd_start_dt.bind (fun u => if t < u then some u else none)
    else none

/-- Modelled from the spec's words, for comparison with the code: the
*chronologically* next start date among rows sharing `r`'s key — the least
start date strictly greater than `r`'s own. -/
def specNextChronoStart (r : PrdRowIn) (rows : List PrdRowIn) : Option ℤ :=
  r.prd_start_dt.bind fun t => listMin? (specLaterStarts r rows t)

/-- Modelled from the spec's words: each row's end date is the
chronologically next start date of its key, minus one day, independent of
input order. -/
def specEndDates (rows : List PrdRowIn) : List (PrdRowIn × Option ℤ) :=
  rows.map fun r => (r, (specNextChronoStart r rows).map (· - 1))

/-- Rows `a` before `b` in input order are chronologically consistent:
if they share a product key, `a`'s start date is strictly earlier. -/
def sameKeyAscending (a b : PrdRowIn) : Prop :=
  a.prd_key = b.prd_key →
    match a.prd_start_dt, b.prd_start_dt with
    | some ta, some tb => ta < tb
    | _, _ => True

/-! ## Cleaning of `crm_customer_info`
(`silver.py`, `clean_and_load_crm_customer_info`) -/

/-- A raw `crm_customer_info` row after the type casts at the top of
`clean_and_load_crm_customer_info` (`Int64` id, datetime create date,
`string`-typed text columns). -/
structure CustRowIn where
  cst_id : Option ℤ
  cst_key : PyStr
  cst_firstname : Option PyStr
  cst_lastname : Option PyStr
  cst_marital_status : Option PyStr
  cst_gndr : Option PyStr
  cst_create_date : Option ℤ
deriving DecidableEq, Repr

/-- A cleaned `crm_customer_info` row: names trimmed, gender and marital
status standardized to plain strings. -/
structure CustRowOut where
  cst_id : Option ℤ
  cst_key : PyStr
  cst_firstname : Option PyStr
  cst_lastname : Option PyStr
  cst_marital_status : PyStr
  cst_gndr : PyStr
  cst_create_date : Option ℤ
deriving DecidableEq, Repr

/-- The sort key of `df.sort_values(by=["cst_id", "cst_create_date"],
ascending=[True, False])` as a 4-tuple ordered lexicographically: id nulls
last, then id ascending, then create-date nulls last (`na_position`
defaults to `"last"` for every column), then create date descending
(encoded by negation). -/
def custSortRank (r : CustRowIn) : ℤ × ℤ × ℤ × ℤ :=
  ((match r.cst_id with | some _ => 0 | none => 1),
   (match r.cst_id with | some v => v | none => 0),
   (match r.cst_create_date with | some _ => 0 | none => 1),
   (match r.cst_create_date with | some d => -d | none => 0))

/-- Strict lexicographic comparison of 4-tuples of integers. -/
def lex4Lt (a b : ℤ × ℤ × ℤ × ℤ) : Bool :=
  decide (a.1 < b.1) || (a.1 == b.1 &&
    (decide (a.2.1 < b.2.1) || (a.2.1 == b.2.1 &&
      (decide (a.2.2.1 < b.2.2.1) || (a.2.2.1 == b.2.2.1 &&
        decide (a.2.2.2 < b.2.2.2))))))

/-- Row `a` sorts strictly before row `b`. -/
def custLT (a b : CustRowIn) : Bool := lex4Lt (custSortRank a) (custSortRank b)

/-- Stable insertion into a sorted list: `x` goes in front of the first
element that does not sort strictly before it. -/
def insertBy {α : Type} (lt : α → α → Bool) (x : α) : List α → List α
  | [] => [x]
  | y :: ys => if lt y x then y :: insertBy lt x ys else x :: y :: ys

/-- Stable sort (insertion sort).  A faithful model of pandas
`sort_values` on several columns, which uses `np.lexsort` — a stable
sort (the `kind` keyword only applies to single-column sorts). -/
def sortValuesBy {α : Type} (lt : α → α → Bool) : List α → List α
  | [] => []
  | x :: xs => insertBy lt x (sortValuesBy lt xs)

/-- `df.drop_duplicates(subset=["cst_id"], keep="first")`: keep the first
row of each id, in order. -/
def dropDuplicatesKeepFirst (seen : List (Option ℤ)) :
    List CustRowIn → List CustRowIn
  | [] => []
  | r :: rs =>
      if r.cst_id ∈ seen then dropDuplicatesKeepFirst seen rs
      else r :: dropDuplicatesKeepFirst (r.cst_id :: seen) rs

/-- `x.str.strip()` on a nullable string column: nulls stay null. -/
def pdStrTrim : Option PyStr → Option PyStr := Option.map pyStrip

/-- The gender-standardization lambda of `clean_and_load_crm_customer_info`:
`"Male" if pd.notna(x) and x.upper() == "M" else ("Female" if pd.notna(x)
and x.upper() == "F" else "N/A")`. -/
def map_cst_gndr (x : Option PyStr) : PyStr :=
  match x with
  | some s =>
      if pyUpper s == "M".toList then "Male".toList
      else if pyUpper s == "F".toList then "Female".toList
      else "N/A".toList
  | none => "N/A".toList

/-- The marital-status lambda of `clean_and_load_crm_customer_info`. -/
def map_cst_marital_status (x : Option PyStr) : PyStr :=
  match x with
  | some s =>
      if pyUpper s == "M".toList then "Married".toList
      else if pyUpper s == "S".toList then "Single".toList
      else "N/A".toList
  | none => "N/A".toList

/-- The column operations of `clean_and_load_crm_customer_info` that run
after deduplication: trim the four text columns, then standardize gender
and marital status (on the trimmed values). -/
def cleanCustStrings (r : CustRowIn) : CustRowOut :=
  { cst_id := r.cst_id
    cst_key := r.cst_key
    cst_firstname := pdStrTrim r.cst_firstname
    cst_lastname := pdStrTrim r.cst_lastname
    cst_marital_status := map_cst_marital_status (pdStrTrim r.cst_marital_status)
    cst_gndr := map_cst_gndr (pdStrTrim r.cst_gndr)
    cst_create_date := r.cst_create_date }

/-- `silver.py`, `clean_and_load_crm_customer_info`, after the type casts:
drop null ids, stable-sort by (id ascending, create date descending),
keep the first row of each id, then clean the text columns. -/
def clean_crm_customer_info (rows : List CustRowIn) : List CustRowOut :=
  let kept := rows.filter (fun r => r.cst_id.isSome)
  let sorted := sortValuesBy custLT kept
  let dedup := dropDuplicatesKeepFirst [] sorted
  dedup.map cleanCustStrings

/-- `s ≤ r` on nullable create dates, null counting as least recent. -/
def dateLEb : Option ℤ → Option ℤ → Bool
  | none, _ => true
  | some _, none => false
  | some a, some b => decide (a ≤ b)

/-- Modelled from the spec's words, for comparison with the code: the
claimed survivor for id `i` — the first row in input order, among the rows
with that id, whose create date is at least as recent as every other's
(so: the most recent create date, ties broken by first-seen order). -/
def specSurvivor (i : ℤ) (rows : List CustRowIn) : Option CustRowIn :=
  let g := rows.filter (fun r => r.cst_id == some i)
  g.find? (fun r => g.all (fun s => dateLEb s.cst_create_date r.cst_create_date))

/-! ## Cleaning of `erp_cust_az12` and `erp_loc_a101`
(`silver.py`, `clean_and_load_erp_cust_az12`, `clean_and_load_erp_loc_a101`) -/

/-- A raw `erp_cust_az12` row (id key non-null in bronze). -/
structure ErpCustRowIn where
  cid : PyStr
  bdate : Option ℤ
  gen : Option PyStr
deriving DecidableEq, Repr

/-- A cleaned `erp_cust_az12` row. -/
structure ErpCustRowOut where
  cid : PyStr
  bdate : Option ℤ
  gen : PyStr
deriving DecidableEq, Repr

/-- `df["cid"].where(~df["cid"].str.startswith("NAS"),
df["cid"].str[3:].str.strip())`. -/
def clean_erp_cid (cid : PyStr) : PyStr :=
  if charsPrefixOf "NAS".toList cid then pyStrip (cid.drop 3) else cid

/-- `df["bdate"].where(df["bdate"] < current_date, pd.NaT)`: a birthdate
not strictly before the processing timestamp becomes null (`NaT`
compares false, so a null stays null). -/
def clean_bdate (today : ℤ) : Option ℤ → Option ℤ
  | some d => if d < today then some d else none
  | none => none

/-- The gender standardization of `clean_and_load_erp_cust_az12`, applied
to the `astype(str)` rendering of the cell: strip, then rewrite `F`/`M`
(case-insensitively, on the stripped value) to `Female`/`Male`, then
rewrite the empty string to `"N/A"`; everything else stays as stripped. -/
def clean_gen (x0 : PyStr) : PyStr :=
  let x1 := pyStrip x0
  let x2 := if pyUpper (pyStrip x1) == "F".toList then "Female".toList else x1
  let x3 := if pyUpper (pyStrip x2) == "M".toList then "Male".toList else x2
  if x3.length == 0 then "N/A".toList else x3

/-- `silver.py`, `clean_and_load_erp_cust_az12` (row-wise form of its
column operations). -/
def clean_erp_cust_az12 (today : ℤ) (rows : List ErpCustRowIn) :
    List ErpCustRowOut :=
  rows.map fun r =>
    ⟨clean_erp_cid r.cid, clean_bdate today r.bdate, clean_gen (pyStr r.gen)⟩

/-- A raw `erp_loc_a101` row. -/
structure ErpLocRowIn where
  cid : Option PyStr
  cntry : Option PyStr
deriving DecidableEq, Repr

/-- A cleaned `erp_loc_a101` row. -/
structure ErpLocRowOut where
  cid : PyStr
  cntry : PyStr
deriving DecidableEq, Repr

/-- `silver.py`, `map_erp_loc_a101_cntry`, translated arm by arm (its
Python `match` compares the scrutinee against the string literals in
order; the `None` arm is kept even though the deployed caller can never
reach it). -/
def map_erp_loc_a101_cntry (x : Option PyStr) : PyStr :=
  match x with
  | none => "N/A".toList
  | some s =>
      if s == "DE".toList then "Germany".toList
      else if s == "USA".toList || s == "US".toList then
        "United States".toList
      else if s == "".toList then "N/A".toList
      else s

/-- The `cid` operations of `clean_and_load_erp_loc_a101`:
`astype(str).str.strip()`, then remove `-` from the rows that contain
one (`str.replace("-", "")` removes every occurrence). -/
def clean_loc_cid (x : Option PyStr) : PyStr :=
  let s := pyStrip (pyStr x)
  if s.contains '-' then s.filter (fun c => c ≠ '-') else s

/-- The `cntry` operations of `clean_and_load_erp_loc_a101`:
`astype(str).str.strip()` first, and only then the country lookup — so
the lookup always receives an actual string. -/
def clean_cntry (x : Option PyStr) : PyStr :=
  map_erp_loc_a101_cntry (some (pyStrip (pyStr x)))

/-- `silver.py`, `clean_and_load_erp_loc_a101` (row-wise form of its
column operations). -/
def clean_erp_loc_a101 (rows : List ErpLocRowIn) : List ErpLocRowOut :=
  rows.map fun r => ⟨clean_loc_cid r.cid, clean_cntry r.cntry⟩

/-- An `erp_px_cat_g1v2` row (pass-through table). -/
structure PxCatRow where
  id : PyStr
  cat : PyStr
  subcat : PyStr
  maintenance : PyStr
deriving DecidableEq, Repr

/-! ## Provisioning: `run_psql_script` and `set_up_data_warehouse`
(`utils/psql_commands.py` — the second, shadowing definition of
`run_psql_script` is the live one — and `init_db.py`) -/

/-- The observable outcome of one `subprocess.run` of `psql`. -/
structure ScriptResult where
  returncode : ℤ
  stderr : PyStr
deriving DecidableEq, Repr

/-- Python's substring test `needle in hay`. -/
def pySubstrIn (needle hay : PyStr) : Bool := charsSubstrOf needle hay

/-- `utils/psql_commands.py`, `run_psql_script` (the second definition,
which shadows the first): a non-zero exit is reported as success exactly
when the stderr output contains one of the ignorable-error substrings;
a zero exit is always success. -/
def run_psql_script (res : ScriptResult) (ignorable_errors : List PyStr) :
    Bool :=
  if res.returncode ≠ 0 then
    if ignorable_errors.any (fun err => pySubstrIn err res.stderr) then true
    else false
  else true

/-- `init_db.py`, `IGNORABLE_ERRORS`. -/
def IGNORABLE_ERRORS : List PyStr := ["is being accessed by other users".toList]

/-- `init_db.py`, `set_up_data_warehouse`, as a function of the outcomes
the environment gives the successive scripts: each script is run through
`run_psql_script` with `IGNORABLE_ERRORS`; on reported failure the
process exits with a non-zero status (`false`) and later scripts never
run; otherwise the loop continues (`true` = ran to completion). -/
def set_up_data_warehouse : List ScriptResult → Bool
  | [] => true
  | r :: rs =>
      if run_psql_script r IGNORABLE_ERRORS then set_up_data_warehouse rs
      else false

/-! ## The silver-layer run (`silver.py`, `run_silver_layer`) -/

/-- The bronze snapshots extracted at the start of a run (after the
per-table type casts that this model builds into the row types). -/
structure BronzeData where
  crm_customer_info : List CustRowIn
  crm_prd_info : List PrdRowIn
  crm_sales_details : List SalesDetailsRowIn
  erp_cust_az12 : List ErpCustRowIn
  erp_loc_a101 : List ErpLocRowIn
  erp_px_cat_g1v2 : List PxCatRow
deriving DecidableEq

/-- The contents of the six silver tables. -/
structure SilverState where
  crm_customer_info : List CustRowOut
  crm_prd_info : List PrdRowOut
  crm_sales_details : List SalesDetailsRowOut
  erp_cust_az12 : List ErpCustRowOut
  erp_loc_a101 : List ErpLocRowOut
  erp_px_cat_g1v2 : List PxCatRow
deriving DecidableEq

/-- `silver.py`, `truncate_tables`: every silver table is emptied. -/
def truncate_tables (_s : SilverState) : SilverState := ⟨[], [], [], [], [], []⟩

/-- `silver.py`, `run_silver_layer`: truncate every silver table, then
clean-and-append table by table (CRM group, then ERP group).  `today` is
the value `pd.Timestamp("today")` reads from the clock during the run.
The `Bool` records whether the run completed (a `ValueError` escaping the
sales-date decoding aborts it mid-way, after the customer and product
tables are already loaded). -/
def run_silver_layer (today : ℤ) (b : BronzeData) (s : SilverState) :
    SilverState × Bool :=
  let s0 := truncate_tables s
  let s1 := { s0 with
    crm_customer_info :=
      s0.crm_customer_info ++ clean_crm_customer_info b.crm_customer_info }
  let s2 := { s1 with
    crm_prd_info := s1.crm_prd_info ++ clean_crm_prd_info b.crm_prd_info }
  match clean_crm_sales_details b.crm_sales_details with
  | .error _ => (s2, false)
  | .ok sales =>
      let s3 := { s2 with
        crm_sales_details := s2.crm_sales_details ++ sales }
      let s4 := { s3 with
        erp_cust_az12 :=
          s3.erp_cust_az12 ++ clean_erp_cust_az12 today b.erp_cust_az12 }
      let s5 := { s4 with
        erp_loc_a101 := s4.erp_loc_a101 ++ clean_erp_loc_a101 b.erp_loc_a101 }
      let s6 := { s5 with
        erp_px_cat_g1v2 := s5.erp_px_cat_g1v2 ++ b.erp_px_cat_g1v2 }
      (s6, true)

/-! ## Helper lemmas -/

theorem clean_gen_cases (x : PyStr) :
    clean_gen x = "Female".toList ∨ clean_gen x = "Male".toList ∨
    clean_gen x = "N/A".toList ∨ clean_gen x = pyStrip x := by
  simp only [clean_gen]
  split_ifs <;> simp_all

/-! ## Claim theorems -/

/-- **C2** (code bug): the sales-detail date decoder is *not* total on its
guard range: `19991301` is positive, 8 digits long and inside
`[19000101, 20500101]`, so it passes the guard, and `strptime` then raises
`ValueError` (month 13) instead of the documented null — while the other
specified probe inputs behave as claimed. -/
theorem claimC2_date_decoder_eval :
    map_crm_sales_details_date_columns 19991301 = .error () ∧
    map_crm_sales_details_date_columns 20231231 = .ok (some ⟨2023, 12, 31⟩) ∧
    map_crm_sales_details_date_columns 0 = .ok none ∧
    map_crm_sales_details_date_columns 20500102 = .ok none ∧
    map_crm_sales_details_date_columns 19000101 = .ok (some ⟨1900, 1, 1⟩) := by
  refine ⟨by decide, by decide, by decide, by decide, by decide⟩

/-- **C3** (counterexample): on the batch with costs `[-10, 1]` the code
replaces the negative cost with `-9/2`, the mean over *all* non-null costs
(negative ones included), not with `1`, the mean over the non-negative
non-null costs claimed by the spec — and the cleaned cost is negative.  An
all-null batch moreover stays null (its mean is `NaN`). -/
theorem claimC3_counterexample :
    (clean_crm_prd_info
        [⟨some 1, "AA-AA-11".toList, "a".toList, some (-10), some "M".toList,
          some 5⟩,
         ⟨some 2, "AA-AA-12".toList, "b".toList, some 1, some "R".toList,
          some 3⟩]).map (·.prd_cost) = [some (-9/2), some 1] ∧
    specMeanNonneg [some (-10), some 1] = some 1 ∧
    ((-9 : ℚ)/2 < 0) ∧
    (clean_crm_prd_info
        [⟨some 3, "BB-BB-11".toList, "c".toList, none, none, none⟩]).map
        (·.prd_cost) = [none] := by
  refine ⟨?_, ?_, by norm_num, by decide⟩
  · norm_num [clean_crm_prd_info, deriveEndDates, nextStartSameKey, pdMean,
      imputeCost, List.filterMap_cons]
  · norm_num [specMeanNonneg, List.filterMap_cons, List.filter_cons]

/-- **C3** (amended): every negative or null cost is replaced by the
arithmetic mean of *all* non-null costs of the batch; consequently every
cleaned cost is non-null and non-negative *provided* that mean exists and
is non-negative. -/
theorem claimC3_cost_mean :
    ∀ (rows : List PrdRowIn) (m : ℚ),
      pdMean (rows.map (·.prd_cost)) = some m → 0 ≤ m →
      ∀ r ∈ clean_crm_prd_info rows, ∃ v, r.prd_cost = some v ∧ 0 ≤ v := by
  intro rows m hm h0 r hr
  simp only [clean_crm_prd_info] at hr
  obtain ⟨p, _, rfl⟩ := List.mem_map.1 hr
  rcases hc : p.1.prd_cost with _ | v
  · exact ⟨m, by simp [imputeCost, hc, hm], h0⟩
  · by_cases hv : v < 0
    · exact ⟨m, by simp [imputeCost, hc, hv, hm], h0⟩
    · exact ⟨v, by simp [imputeCost, hc, hv], le_of_not_lt hv⟩

/-- Witness for `claimC3_cost_mean` at a concrete batch. -/
theorem claimC3_witness :
    ∃ v, (⟨some 1, "AA_AA".toList, "11".toList, "a".toList, some 2,
      "Mountain".toList, some 5, none⟩ : PrdRowOut).prd_cost = some v ∧
      0 ≤ v :=
  claimC3_cost_mean
    [⟨some 1, "AA-AA-11".toList, "a".toList, some 2, some "M".toList, some 5⟩,
     ⟨some 2, "AA-AA-12".toList, "b".toList, some 3, some "R".toList, some 3⟩]
    (5/2) (by norm_num [pdMean, List.filterMap_cons]) (by norm_num)
    _ (by decide)

/-- **C6** (counterexample): the cleaned `gen` column is *not* confined to
a closed 3-value set — an unrecognized value such as `"Unknown"` passes
through unchanged. -/
theorem claimC6_counterexample :
    clean_erp_cust_az12 0 [⟨"X1".toList, none, some "Unknown".toList⟩] =
      [⟨"X1".toList, none, "Unknown".toList⟩] ∧
    ¬("Unknown".toList = "Female".toList ∨ "Unknown".toList = "Male".toList ∨
      "Unknown".toList = "N/A".toList) := by
  refine ⟨by decide, by decide⟩

/-- **C6** (amended): every cleaned `gen` value is `"Female"`, `"Male"`,
`"N/A"`, or the trimmed `str()`-rendering of the original cell — a closed
set only up to this passthrough. -/
theorem claimC6_gen_amended :
    ∀ (today : ℤ) (rows : List ErpCustRowIn) (r : ErpCustRowOut),
      r ∈ clean_erp_cust_az12 today rows →
      r.gen = "Female".toList ∨ r.gen = "Male".toList ∨
        r.gen = "N/A".toList ∨ ∃ s ∈ rows, r.gen = pyStrip (pyStr s.gen) := by
  intro today rows r hr
  simp only [clean_erp_cust_az12] at hr
  obtain ⟨s, hs, rfl⟩ := List.mem_map.1 hr
  dsimp only
  rcases clean_gen_cases (pyStr s.gen) with h | h | h | h
  · exact Or.inl h
  · exact Or.inr (Or.inl h)
  · exact Or.inr (Or.inr (Or.inl h))
  · exact Or.inr (Or.inr (Or.inr ⟨s, hs, h⟩))

/-- Witness for `claimC6_gen_amended` at a concrete row. -/
theorem claimC6_witness :
    (⟨"X1".toList, none, "Unknown".toList⟩ : ErpCustRowOut).gen =
      "Female".toList ∨
    (⟨"X1".toList, none, "Unknown".toList⟩ : ErpCustRowOut).gen =
      "Male".toList ∨
    (⟨"X1".toList, none, "Unknown".toList⟩ : ErpCustRowOut).gen =
      "N/A".toList ∨
    ∃ s ∈ [(⟨"X1".toList, none, some "Unknown".toList⟩ : ErpCustRowIn)],
      (⟨"X1".toList, none, "Unknown".toList⟩ : ErpCustRowOut).gen =
        pyStrip (pyStr s.gen) :=
  claimC6_gen_amended 0 [⟨"X1".toList, none, some "Unknown".toList⟩]
    ⟨"X1".toList, none, "Unknown".toList⟩ (by decide)

/-- **C7** (code bug): a null country is rendered `"None"` by
`astype(str)` *before* the lookup runs, so the lookup's null arm is dead:
the cleaned value of a null country is the literal string `"None"`, not
the claimed `"N/A"`.  The remaining arms behave as claimed. -/
theorem claimC7_cntry_eval :
    clean_cntry none = "None".toList ∧
    "None".toList ≠ "N/A".toList ∧
    clean_cntry (some "US".toList) = "United States".toList ∧
    clean_cntry (some "USA".toList) = "United States".toList ∧
    clean_cntry (some "DE".toList) = "Germany".toList ∧
    clean_cntry (some "".toList) = "N/A".toList ∧
    clean_cntry (some "FR".toList) = "FR".toList ∧
    clean_cntry (some " US ".toList) = "United States".toList := by
  refine ⟨by decide, by decide, by decide, by decide, by decide, by decide,
    by decide, by decide⟩

/-- **C9**: `run_psql_script` (the live, shadowing definition) reports
success iff the exit status is zero or the stderr output contains an
allowlisted substring; an allowlisted failure leaves
`set_up_data_warehouse` to continue exactly as on success, while any other
non-zero exit terminates the process with a non-zero status (further
scripts never run). -/
theorem claimC9_run_psql_script :
    ∀ (res : ScriptResult) (ign : List PyStr) (r : ScriptResult)
      (rs : List ScriptResult),
      (run_psql_script res ign = true ↔
        (res.returncode = 0 ∨ ∃ e ∈ ign, pySubstrIn e res.stderr = true)) ∧
      (run_psql_script r IGNORABLE_ERRORS = true →
        set_up_data_warehouse (r :: rs) = set_up_data_warehouse rs) ∧
      (run_psql_script r IGNORABLE_ERRORS = false →
        set_up_data_warehouse (r :: rs) = false) := by
  intro res ign r rs
  refine ⟨?_, ?_, ?_⟩
  · simp only [run_psql_script]
    split_ifs with h1 h2
    · simp only [true_iff]
      rcases List.any_eq_true.1 h2 with ⟨e, he, hsub⟩
      exact Or.inr ⟨e, he, hsub⟩
    · simp only [false_iff]
      push_neg
      refine ⟨h1, fun e he => ?_⟩
      by_contra hc
      exact h2 (List.any_eq_true.2 ⟨e, he, by simpa using hc⟩)
    · simp only [true_iff]
      exact Or.inl (by omega)
  · intro h
    simp [set_up_data_warehouse, h]
  · intro h
    simp [set_up_data_warehouse, h]

/-- Witness for `claimC9_run_psql_script`: a zero exit succeeds, an
allowlisted non-zero exit is swallowed (setup continues as on success),
and an arbitrary non-zero exit aborts the setup. -/
theorem claimC9_witness :
    run_psql_script ⟨0, "".toList⟩ IGNORABLE_ERRORS = true ∧
    set_up_data_warehouse
      [⟨1, "ERROR: database datawarehouse is being accessed by other users".toList⟩] =
      set_up_data_warehouse [] ∧
    set_up_data_warehouse [⟨2, "ERROR: syntax error".toList⟩, ⟨0, "".toList⟩] =
      false := by
  refine ⟨?_, ?_, ?_⟩
  · exact (claimC9_run_psql_script ⟨0, "".toList⟩ IGNORABLE_ERRORS
      ⟨0, "".toList⟩ []).1.2 (Or.inl rfl)
  · exact (claimC9_run_psql_script ⟨0, "".toList⟩ IGNORABLE_ERRORS
      ⟨1, "ERROR: database datawarehouse is being accessed by other users".toList⟩
      []).2.1 (by decide)
  · exact (claimC9_run_psql_script ⟨0, "".toList⟩ IGNORABLE_ERRORS
      ⟨2, "ERROR: syntax error".toList⟩ [⟨0, "".toList⟩]).2.2 (by decide)

/-- **C10** (counterexample): the character at index 5 of a raw product
key *can* reappear in the cleaned key: for the realistic key
`CO-RF-FR-R92B-58` the index-5 character is `-`, and the cleaned key
`FR-R92B-58` contains `-`. -/
theorem claimC10_counterexample :
    7 ≤ "CO-RF-FR-R92B-58".toList.length ∧
    "CO-RF-FR-R92B-58".toList.get? 5 = some '-' ∧
    derive_cat_id "CO-RF-FR-R92B-58".toList = "CO_RF".toList ∧
    trim_prd_key "CO-RF-FR-R92B-58".toList = "FR-R92B-58".toList ∧
    '-' ∈ trim_prd_key "CO-RF-FR-R92B-58".toList := by
  refine ⟨by decide, by decide, by decide, by decide, by decide⟩

/-- **C10** (amended): `cat_id` is built from indexes 0–4 (with `-`
replaced by `_`) and the cleaned key from index 6 on, so the index-5
character *position* contributes to neither output (replacing it changes
nothing) — though its character *value* may still occur in them via other
positions. -/
theorem claimC10_key_slicing :
    ∀ (pre : List Char) (c c' : Char) (suf : List Char),
      pre.length = 5 →
      derive_cat_id (pre ++ c :: suf) =
        pre.map (fun a => if a = '-' then '_' else a) ∧
      trim_prd_key (pre ++ c :: suf) = suf ∧
      derive_cat_id (pre ++ c :: suf) = derive_cat_id (pre ++ c' :: suf) ∧
      trim_prd_key (pre ++ c :: suf) = trim_prd_key (pre ++ c' :: suf) := by
  intro pre c c' suf h
  have htake : ∀ d : Char, (pre ++ d :: suf).take 5 = pre := by
    intro d
    rw [← h]
    exact List.take_left pre (d :: suf)
  have hdrop : ∀ d : Char, (pre ++ d :: suf).drop 6 = suf := by
    intro d
    have h2 : pre ++ d :: suf = (pre ++ [d]) ++ suf := by simp
    have h3 : (pre ++ [d]).length = 6 := by simp [h]
    rw [h2, ← h3]
    exact List.drop_left (pre ++ [d]) suf
  refine ⟨?_, ?_, ?_, ?_⟩
  · simp [derive_cat_id, htake]
  · simp [trim_prd_key, hdrop]
  · simp [derive_cat_id, htake]
  · simp [trim_prd_key, hdrop]

/-- Witness for `claimC10_key_slicing` at the key `CO-RF-FR-R92B-58`. -/
theorem claimC10_witness :
    derive_cat_id ("CO-RF".toList ++ '-' :: "FR-R92B-58".toList) =
      "CO-RF".toList.map (fun a => if a = '-' then '_' else a) ∧
    trim_prd_key ("CO-RF".toList ++ '-' :: "FR-R92B-58".toList) =
      "FR-R92B-58".toList ∧
    derive_cat_id ("CO-RF".toList ++ '-' :: "FR-R92B-58".toList) =
      derive_cat_id ("CO-RF".toList ++ 'Z' :: "FR-R92B-58".toList) ∧
    trim_prd_key ("CO-RF".toList ++ '-' :: "FR-R92B-58".toList) =
      trim_prd_key ("CO-RF".toList ++ 'Z' :: "FR-R92B-58".toList) :=
  claimC10_key_slicing "CO-RF".toList '-' 'Z' "FR-R92B-58".toList (by decide)
theorem PyF.mulComm (x y : PyF) : x.mul y = y.mul x := by
  rcases x <;> rcases y <;> simp [PyF.mul, mul_comm]

theorem PyF.beqSelf (x : PyF) (h : x ≠ PyF.nan) : x.beq x = true := by
  rcases x <;> simp_all [PyF.beq]

theorem PyF.mulNumNeNan (p : PyF) (q : ℚ) (hp : p ≠ .nan) (hq : q ≠ 0) :
    p.mul (.num q) ≠ .nan := by
  rcases p with p | _ | _ | _
  · simp [PyF.mul]
  · simp only [PyF.mul]
    rcases lt_or_gt_of_ne hq with h | h <;> simp [h, asymm h]
  · simp only [PyF.mul]
    rcases lt_or_gt_of_ne hq with h | h <;> simp [h, asymm h]
  · exact absurd rfl hp

theorem stepC_invariant (s : SalesRow) (q : ℚ) (hq : q ≠ 0)
    (hqty : s.sls_quantity = PyF.num q) (hp : s.sls_price ≠ PyF.nan) :
    (businessRuleStepC s).sls_sales.beq
      ((businessRuleStepC s).sls_price.mul
        (businessRuleStepC s).sls_quantity) = true := by
  obtain ⟨sales, qty, price⟩ := s
  subst hqty
  dsimp only at hp
  simp only [businessRuleStepC]
  split_ifs with h
  · dsimp only
    rw [PyF.mulComm (PyF.num q) price]
    exact PyF.beqSelf _ (PyF.mulNumNeNan price q hp hq)
  · dsimp only
    dsimp only [PyF.ne] at h
    simpa using h

theorem stepB_preserves (s : SalesRow) (hp : s.sls_price ≠ PyF.nan) :
    (businessRuleStepB s).sls_price ≠ PyF.nan ∧
    (businessRuleStepB s).sls_quantity = s.sls_quantity := by
  obtain ⟨sales, qty, price⟩ := s
  simp only [businessRuleStepB]
  split_ifs with h
  · dsimp only at hp ⊢
    constructor
    · rcases price <;> simp_all [PyF.abs]
    · rfl
  · exact ⟨hp, rfl⟩

theorem stepA_preserves (s : SalesRow) (q : ℚ) (hq : q ≠ 0)
    (hqty : s.sls_quantity = PyF.num q)
    (h : ¬(s.sls_price = PyF.nan ∧ s.sls_sales = PyF.nan)) :
    (businessRuleStepA s).sls_price ≠ PyF.nan ∧
    (businessRuleStepA s).sls_quantity = s.sls_quantity := by
  obtain ⟨sales, qty, price⟩ := s
  subst hqty
  dsimp only at h
  simp only [businessRuleStepA]
  split_ifs with hnull
  · dsimp only
    refine ⟨?_, rfl⟩
    have hpnan : price = PyF.nan := by
      rcases price <;> simp_all [PyF.isnull]
    have hsales : sales ≠ PyF.nan := fun hs => h ⟨hpnan, hs⟩
    rcases sales with a | _ | _ | _
    · simp only [PyF.div]
      split_ifs <;> simp_all
    · simp only [PyF.div]
      split_ifs <;> simp
    · simp only [PyF.div]
      split_ifs <;> simp
    · exact absurd rfl hsales
  · refine ⟨?_, rfl⟩
    rcases price <;> simp_all [PyF.isnull]

theorem sales_rule_invariant (s : SalesRow) (q : ℚ) (hq : q ≠ 0)
    (hqty : s.sls_quantity = PyF.num q)
    (h : ¬(s.sls_price = PyF.nan ∧ s.sls_sales = PyF.nan)) :
    (sales_and_price_to_business_rule s).sls_sales.beq
      ((sales_and_price_to_business_rule s).sls_price.mul
        (sales_and_price_to_business_rule s).sls_quantity) = true := by
  have hA := stepA_preserves s q hq hqty h
  have hB := stepB_preserves _ hA.1
  simp only [sales_and_price_to_business_rule]
  exact stepC_invariant _ q hq (by rw [hB.2, hA.2, hqty]) hB.1

theorem exceptBindErr {α β γ : Type} (e : γ) (f : α → Except γ β) :
    (do let x ← (Except.error e : Except γ α); f x) = Except.error e := rfl

theorem exceptBindOk {α β γ : Type} (a : α) (f : α → Except γ β) :
    (do let x ← (Except.ok a : Except γ α); f x) = f a := rfl

theorem exceptPure {α γ : Type} (a : α) : (pure a : Except γ α) = Except.ok a := rfl

/-- **C1** (amended): under the preconditions that every row's quantity is
a nonzero *finite* number — not merely present and non-null — and that
price and sales are never both null in the same row, every row of the
cleaned `crm_sales_details` snapshot satisfies `sales == price * quantity`
exactly (Python float equality). -/
theorem claimC1_sales_invariant :
    ∀ (rows : List SalesDetailsRowIn) (out : List SalesDetailsRowOut),
      clean_crm_sales_details rows = .ok out →
      (∀ r ∈ rows, (∃ q : ℚ, q ≠ 0 ∧ r.sls_quantity = PyF.num q) ∧
        ¬(r.sls_price = PyF.nan ∧ r.sls_sales = PyF.nan)) →
      ∀ o ∈ out, o.sls_sales.beq (o.sls_price.mul o.sls_quantity) = true := by
  intro rows
  induction rows with
  | nil =>
      intro out hclean _ o ho
      simp only [clean_crm_sales_details, List.mapM_nil] at hclean
      cases hclean
      simp at ho
  | cons r rs ih =>
      intro out hclean hpre o ho
      simp only [clean_crm_sales_details, List.mapM_cons] at hclean
      rcases hod : map_crm_sales_details_date_columns r.sls_order_dt with e | od <;>
        rw [hod] at hclean <;>
        simp only [exceptBindErr, exceptBindOk] at hclean
      · exact absurd hclean (by simp)
      rcases hsd : map_crm_sales_details_date_columns r.sls_ship_dt with e | sd <;>
        rw [hsd] at hclean <;>
        simp only [exceptBindErr, exceptBindOk] at hclean
      · exact absurd hclean (by simp)
      rcases hdd : map_crm_sales_details_date_columns r.sls_due_dt with e | dd <;>
        rw [hdd] at hclean <;>
        simp only [exceptBindErr, exceptBindOk] at hclean
      · exact absurd hclean (by simp)
      rcases hrs : List.mapM (fun r => do
          let od ← map_crm_sales_details_date_columns r.sls_order_dt
          let sd ← map_crm_sales_details_date_columns r.sls_ship_dt
          let dd ← map_crm_sales_details_date_columns r.sls_due_dt
          let nums := sales_and_price_to_business_rule
            ⟨r.sls_sales, r.sls_quantity, r.sls_price⟩
          pure (⟨r.sls_ord_num, r.sls_prd_key, r.sls_cust_id, od, sd, dd,
            nums.sls_sales, nums.sls_quantity, nums.sls_price⟩ :
            SalesDetailsRowOut)) rs with e | bs <;>
        rw [hrs] at hclean <;>
        simp only [exceptBindErr, exceptBindOk, exceptPure] at hclean
      · exact absurd hclean (by simp)
      injection hclean with hout
      subst hout
      rcases List.mem_cons.1 ho with rfl | hmem
      · dsimp only
        obtain ⟨⟨q, hq, hqty⟩, hboth⟩ := hpre r (List.mem_cons_self r rs)
        exact sales_rule_invariant ⟨r.sls_sales, r.sls_quantity, r.sls_price⟩
          q hq hqty hboth
      · refine ih bs ?_ (fun x hx => hpre x (List.mem_cons_of_mem r hx)) o hmem
        simp only [clean_crm_sales_details]
        exact hrs

/-- **C1** (counterexample): with quantity `0` (allowed by the claim's
preconditions: quantity is present and non-null, and price/sales are not
both null), step (a) divides by zero, yielding `+inf`, and step (c) then
stores `0 * inf = nan` into sales, so the final check `sales ==
price * quantity` is `nan == nan`, which is *false* for floats. -/
theorem claimC1_counterexample :
    (PyF.num 0).isnull = false ∧
    ¬((PyF.nan : PyF) = PyF.nan ∧ (PyF.num 5 : PyF) = PyF.nan) ∧
    sales_and_price_to_business_rule ⟨PyF.num 5, PyF.num 0, PyF.nan⟩ =
      ⟨PyF.nan, PyF.num 0, PyF.pinf⟩ ∧
    (sales_and_price_to_business_rule
        ⟨PyF.num 5, PyF.num 0, PyF.nan⟩).sls_sales.beq
      ((sales_and_price_to_business_rule
          ⟨PyF.num 5, PyF.num 0, PyF.nan⟩).sls_price.mul
        (sales_and_price_to_business_rule
          ⟨PyF.num 5, PyF.num 0, PyF.nan⟩).sls_quantity) = false := by
  refine ⟨by decide, by decide, by decide, by decide⟩

/-- Witness for `claimC1_sales_invariant` at a concrete one-row snapshot. -/
theorem claimC1_witness :
    (⟨"O1".toList, "P1".toList, some 1, some ⟨2023, 1, 1⟩, some ⟨2023, 1, 2⟩,
      some ⟨2023, 1, 3⟩, PyF.pinf, PyF.num 2, PyF.pinf⟩ :
      SalesDetailsRowOut).sls_sales.beq
      ((⟨"O1".toList, "P1".toList, some 1, some ⟨2023, 1, 1⟩,
        some ⟨2023, 1, 2⟩, some ⟨2023, 1, 3⟩, PyF.pinf, PyF.num 2,
        PyF.pinf⟩ : SalesDetailsRowOut).sls_price.mul
       (⟨"O1".toList, "P1".toList, some 1, some ⟨2023, 1, 1⟩,
        some ⟨2023, 1, 2⟩, some ⟨2023, 1, 3⟩, PyF.pinf, PyF.num 2,
        PyF.pinf⟩ : SalesDetailsRowOut).sls_quantity) = true :=
  claimC1_sales_invariant
    [⟨"O1".toList, "P1".toList, some 1, 20230101, 20230102, 20230103,
      PyF.pinf, PyF.num 2, PyF.nan⟩]
    [⟨"O1".toList, "P1".toList, some 1, some ⟨2023, 1, 1⟩, some ⟨2023, 1, 2⟩,
      some ⟨2023, 1, 3⟩, PyF.pinf, PyF.num 2, PyF.pinf⟩]
    (by decide)
    (by
      intro r hr
      rcases List.mem_singleton.1 hr with rfl
      exact ⟨⟨2, by norm_num, rfl⟩, by decide⟩)
    _ (by decide)

/-- **C8** (counterexample): two runs over the same bronze snapshots, the
first with the clock at day 10 and the second at day 20, differ on a
stored birthdate of day 15: the first run nulls it
(`15 < 10` is false), the second keeps it — so rerunning against
unchanged bronze data is *not* byte-identical when the clock has
advanced past a stored birthdate. -/
theorem claimC8_counterexample :
    (run_silver_layer 20 ⟨[], [], [], [⟨"C1".toList, some 15, some "F".toList⟩], [], []⟩
      (run_silver_layer 10 ⟨[], [], [], [⟨"C1".toList, some 15, some "F".toList⟩], [], []⟩
        ⟨[], [], [], [], [], []⟩).1).1 ≠
    (run_silver_layer 10 ⟨[], [], [], [⟨"C1".toList, some 15, some "F".toList⟩], [], []⟩
      ⟨[], [], [], [], [], []⟩).1 := by
  decide

/-- **C8** (amended): the silver run is truncate-then-reload, so its
output is independent of the prior silver contents; consequently two runs
over the same bronze data that observe the *same* clock value produce
byte-identical silver contents (the only state the pipeline reads besides
bronze is the clock, used by the `erp_cust_az12` birthdate cutoff). -/
theorem claimC8_same_clock_idempotent :
    ∀ (t : ℤ) (b : BronzeData) (s₁ s₂ : SilverState),
      run_silver_layer t b s₁ = run_silver_layer t b s₂ ∧
      (run_silver_layer t b (run_silver_layer t b s₁).1).1 =
        (run_silver_layer t b s₁).1 := by
  intro t b s₁ s₂
  exact ⟨rfl, rfl⟩

theorem listMin?_mem : ∀ {l : List ℤ} {m : ℤ}, listMin? l = some m → m ∈ l := by
  intro l
  induction l with
  | nil => intro m h; simp [listMin?] at h
  | cons x xs ih =>
      intro m h
      simp only [listMin?] at h
      rcases hxs : listMin? xs with _ | m'
      · rw [hxs] at h
        injection h with h
        exact h ▸ List.mem_cons_self x xs
      · rw [hxs] at h
        injection h with h
        rcases min_cases x m' with ⟨he, _⟩ | ⟨he, _⟩
        · rw [← h, he]
          exact List.mem_cons_self x xs
        · rw [← h, he]
          exact List.mem_cons_of_mem x (ih hxs)

theorem listMin?_cons_of_le (u : ℤ) (l : List ℤ) (h : ∀ v ∈ l, u ≤ v) :
    listMin? (u :: l) = some u := by
  simp only [listMin?]
  rcases hl : listMin? l with _ | m
  · rfl
  · have hm := h m (listMin?_mem hl)
    simp [min_eq_left hm]

theorem mem_specLaterStarts (r : PrdRowIn) (l : List PrdRowIn) (t v : ℤ) :
    v ∈ specLaterStarts r l t ↔
      ∃ x ∈ l, x.prd_key = r.prd_key ∧ x.prd_start_dt = some v ∧ t < v := by
  simp only [specLaterStarts, List.mem_filterMap]
  constructor
  · rintro ⟨x, hx, hfx⟩
    by_cases hk : x.prd_key == r.prd_key
    · rw [if_pos hk] at hfx
      rcases hu : x.prd_start_dt with _ | u
      · rw [hu] at hfx; simp at hfx
      · rw [hu] at hfx
        simp only [Option.some_bind] at hfx
        by_cases ht : t < u
        · rw [if_pos ht] at hfx
          injection hfx with hfx
          exact ⟨x, hx, by simpa using hk, by rw [hu, hfx], hfx ▸ ht⟩
        · rw [if_neg ht] at hfx; simp at hfx
    · rw [if_neg hk] at hfx; simp at hfx
  · rintro ⟨x, hx, hk, hu, ht⟩
    exact ⟨x, hx, by simp [hk, hu, ht]⟩

theorem nextStart_eq_specMin (r : PrdRowIn) (t : ℤ) :
    ∀ rs : List PrdRowIn,
      (∀ s ∈ rs, s.prd_key = r.prd_key → ∃ u, s.prd_start_dt = some u ∧ t < u) →
      rs.Pairwise sameKeyAscending →
      nextStartSameKey r.prd_key rs = listMin? (specLaterStarts r rs t) := by
  intro rs
  induction rs with
  | nil => intro _ _; rfl
  | cons s ss ih =>
      intro hgt hasc
      rcases List.pairwise_cons.1 hasc with ⟨hs, hss⟩
      by_cases hk : s.prd_key = r.prd_key
      · obtain ⟨u, hsu, htu⟩ := hgt s (List.mem_cons_self s ss) hk
        have hfind : nextStartSameKey r.prd_key (s :: ss) = some u := by
          simp [nextStartSameKey, List.find?_cons, hk, hsu]
        have hlist : specLaterStarts r (s :: ss) t =
            u :: specLaterStarts r ss t := by
          simp only [specLaterStarts, List.filterMap_cons]
          rw [if_pos (by simpa using hk), hsu]
          simp [htu]
        rw [hfind, hlist]
        refine (listMin?_cons_of_le u _ ?_).symm
        intro v hv
        obtain ⟨x, hx, hxk, hxu, _⟩ := (mem_specLaterStarts r ss t v).1 hv
        have := hs x hx (hk.trans hxk.symm)
        rw [hsu, hxu] at this
        exact le_of_lt this
      · have hfind : nextStartSameKey r.prd_key (s :: ss) =
            nextStartSameKey r.prd_key ss := by
          simp [nextStartSameKey, List.find?_cons, hk]
        have hlist : specLaterStarts r (s :: ss) t = specLaterStarts r ss t := by
          simp only [specLaterStarts, List.filterMap_cons]
          rw [if_neg (by simpa using hk)]
        rw [hfind, hlist]
        exact ih (fun x hx => hgt x (List.mem_cons_of_mem s hx)) hss

theorem specNextChronoStart_cons (r s : PrdRowIn) (l : List PrdRowIn)
    (h : sameKeyAscending r s) :
    specNextChronoStart s (r :: l) = specNextChronoStart s l := by
  rcases hst : s.prd_start_dt with _ | t
  · simp [specNextChronoStart, hst]
  · simp only [specNextChronoStart, hst, Option.some_bind]
    congr 1
    simp only [specLaterStarts, List.filterMap_cons]
    by_cases hk : r.prd_key = s.prd_key
    · rw [if_pos (by simpa using hk)]
      rcases hru : r.prd_start_dt with _ | u
      · simp
      · have hlt := h hk
        rw [hst, hru] at hlt
        simp only [Option.some_bind]
        rw [if_neg (by omega)]
    · rw [if_neg (by simpa using hk)]

/-- **C4** (amended): the code derives each row's end date from the start
date of the *next row in input order* with the same raw key
(`groupby(...).shift(-1)` — no sorting); this coincides with the claimed
chronological rule exactly when, for every key, the rows already appear in
strictly ascending start-date order in the input (and starts are
present). -/
theorem claimC4_end_dates :
    ∀ rows : List PrdRowIn,
      (∀ r ∈ rows, r.prd_start_dt.isSome = true) →
      rows.Pairwise sameKeyAscending →
      deriveEndDates rows = specEndDates rows := by
  intro rows
  induction rows with
  | nil => intro _ _; rfl
  | cons r rs ih =>
      intro hsome hasc
      rcases List.pairwise_cons.1 hasc with ⟨hr, hrs⟩
      have hrsome := hsome r (List.mem_cons_self r rs)
      rcases hrt : r.prd_start_dt with _ | t
      · rw [hrt] at hrsome; simp at hrsome
      have hgt : ∀ s ∈ rs, s.prd_key = r.prd_key →
          ∃ u, s.prd_start_dt = some u ∧ t < u := by
        intro s hs hk
        have hssome := hsome s (List.mem_cons_of_mem r hs)
        rcases hsu : s.prd_start_dt with _ | u
        · rw [hsu] at hssome; simp at hssome
        · refine ⟨u, rfl, ?_⟩
          have := hr s hs hk.symm
          rw [hrt, hsu] at this
          exact this
      have hcons : specNextChronoStart r (r :: rs) =
          listMin? (specLaterStarts r rs t) := by
        simp only [specNextChronoStart, hrt, Option.some_bind]
        congr 1
        simp only [specLaterStarts, List.filterMap_cons]
        rw [if_pos (by simp), hrt]
        simp only [Option.some_bind]
        rw [if_neg (by omega)]
      have e1 : nextStartSameKey r.prd_key rs =
          specNextChronoStart r (r :: rs) := by
        rw [hcons]
        exact nextStart_eq_specMin r t rs hgt hrs
      have e2 : deriveEndDates rs =
          List.map (fun s =>
            (s, Option.map (· - 1) (specNextChronoStart s (r :: rs)))) rs := by
        rw [ih (fun x hx => hsome x (List.mem_cons_of_mem r hx)) hrs]
        simp only [specEndDates]
        refine List.map_congr_left ?_
        intro s hs
        rw [specNextChronoStart_cons r s rs (hr s hs)]
      simp only [deriveEndDates, specEndDates, List.map_cons]
      rw [e1, e2]

/-- **C4** (counterexample): on two same-key rows arriving in the order
(start 100, start 50), the code gives the start-100 row an end date of 49
(the day before the *input-order* successor) and the start-50 row null,
while the claimed chronological rule gives the start-100 row null and the
start-50 row 99 — the derivation is not input-order independent. -/
theorem claimC4_counterexample :
    deriveEndDates
        [⟨some 1, "K".toList, "a".toList, none, none, some 100⟩,
         ⟨some 2, "K".toList, "b".toList, none, none, some 50⟩] =
      [(⟨some 1, "K".toList, "a".toList, none, none, some 100⟩, some 49),
       (⟨some 2, "K".toList, "b".toList, none, none, some 50⟩, none)] ∧
    specEndDates
        [⟨some 1, "K".toList, "a".toList, none, none, some 100⟩,
         ⟨some 2, "K".toList, "b".toList, none, none, some 50⟩] =
      [(⟨some 1, "K".toList, "a".toList, none, none, some 100⟩, none),
       (⟨some 2, "K".toList, "b".toList, none, none, some 50⟩, some 99)] ∧
    deriveEndDates
        [⟨some 1, "K".toList, "a".toList, none, none, some 100⟩,
         ⟨some 2, "K".toList, "b".toList, none, none, some 50⟩] ≠
      specEndDates
        [⟨some 1, "K".toList, "a".toList, none, none, some 100⟩,
         ⟨some 2, "K".toList, "b".toList, none, none, some 50⟩] := by
  refine ⟨by decide, by decide, by decide⟩

/-- Witness for `claimC4_end_dates`: on per-key-sorted input the code and
the chronological rule agree. -/
theorem claimC4_witness :
    deriveEndDates
        [⟨some 1, "K".toList, "a".toList, none, none, some 50⟩,
         ⟨some 2, "K".toList, "b".toList, none, none, some 100⟩] =
      specEndDates
        [⟨some 1, "K".toList, "a".toList, none, none, some 50⟩,
         ⟨some 2, "K".toList, "b".toList, none, none, some 100⟩] :=
  claimC4_end_dates _ (by decide)
    (by norm_num [List.pairwise_cons, sameKeyAscending])

theorem lex4Lt_iff (a b : ℤ × ℤ × ℤ × ℤ) :
    lex4Lt a b = true ↔
      (a.1 < b.1 ∨ (a.1 = b.1 ∧ (a.2.1 < b.2.1 ∨ (a.2.1 = b.2.1 ∧
        (a.2.2.1 < b.2.2.1 ∨ (a.2.2.1 = b.2.2.1 ∧ a.2.2.2 < b.2.2.2)))))) := by
  simp [lex4Lt]

theorem lex4Lt_chain (p q r : ℤ × ℤ × ℤ × ℤ) (h1 : lex4Lt q p = false)
    (h2 : lex4Lt r q = false) : lex4Lt r p = false := by
  rw [Bool.eq_false_iff] at h1 h2 ⊢
  simp only [ne_eq, lex4Lt_iff] at h1 h2 ⊢
  omega

theorem lex4Lt_asymm (p q : ℤ × ℤ × ℤ × ℤ) (h : lex4Lt p q = true) :
    lex4Lt q p = false := by
  rw [Bool.eq_false_iff]
  simp only [ne_eq, lex4Lt_iff] at h ⊢
  omega

theorem custLT_chain (a b c : CustRowIn) (h1 : custLT b a = false)
    (h2 : custLT c b = false) : custLT c a = false :=
  lex4Lt_chain (custSortRank a) (custSortRank b) (custSortRank c) h1 h2

theorem custLT_asymm (a b : CustRowIn) (h : custLT a b = true) :
    custLT b a = false :=
  lex4Lt_asymm (custSortRank a) (custSortRank b) h

theorem dateLEb_refl (d : Option ℤ) : dateLEb d d = true := by
  rcases d <;> simp [dateLEb]

theorem dateLEb_total (a b : Option ℤ) (h : dateLEb a b = false) :
    dateLEb b a = true := by
  rcases a <;> rcases b <;> simp_all [dateLEb] <;> omega

theorem dateLEb_trans (a b c : Option ℤ) (h1 : dateLEb a b = true)
    (h2 : dateLEb b c = true) : dateLEb a c = true := by
  rcases a <;> rcases b <;> rcases c <;> simp_all [dateLEb] <;> omega

theorem custLT_same_id (f x : CustRowIn) (i : ℤ) (hf : f.cst_id = some i)
    (hx : x.cst_id = some i) :
    custLT f x = true ↔ dateLEb f.cst_create_date x.cst_create_date = false := by
  simp only [custLT, custSortRank, hf, hx, lex4Lt_iff]
  rcases f.cst_create_date with _ | df <;> rcases x.cst_create_date with _ | dx <;>
    simp [dateLEb]

theorem mem_insertBy {α : Type} (lt : α → α → Bool) (x a : α) :
    ∀ l : List α, a ∈ insertBy lt x l ↔ a = x ∨ a ∈ l := by
  intro l
  induction l with
  | nil => simp [insertBy]
  | cons y ys ih =>
      simp only [insertBy]
      split_ifs with h
      · simp only [List.mem_cons, ih]
        tauto
      · simp only [List.mem_cons]

theorem find?_insertBy_of_neg {α : Type} (lt : α → α → Bool) (p : α → Bool)
    (x : α) (hx : p x = false) :
    ∀ l : List α, (insertBy lt x l).find? p = l.find? p := by
  intro l
  induction l with
  | nil => simp [insertBy, List.find?, hx]
  | cons y ys ih =>
      simp only [insertBy]
      split_ifs with h
      · rcases hy : p y with _ | _ <;> simp [List.find?, hy, ih]
      · simp [List.find?, hx]

theorem insertBy_pairwise_custLT (x : CustRowIn) :
    ∀ l : List CustRowIn,
      l.Pairwise (fun a b => custLT b a = false) →
      (insertBy custLT x l).Pairwise (fun a b => custLT b a = false) := by
  intro l
  induction l with
  | nil => simp [insertBy]
  | cons y ys ih =>
      intro hl
      rcases List.pairwise_cons.1 hl with ⟨hy, hys⟩
      simp only [insertBy]
      split_ifs with h
      · rw [List.pairwise_cons]
        refine ⟨?_, ih hys⟩
        intro z hz
        rcases (mem_insertBy custLT x z ys).1 hz with rfl | hz
        · exact custLT_asymm y z h
        · exact hy z hz
      · rw [List.pairwise_cons]
        refine ⟨?_, hl⟩
        intro z hz
        rcases List.mem_cons.1 hz with rfl | hz
        · exact Bool.eq_false_iff.2 h
        · exact custLT_chain x y z (Bool.eq_false_iff.2 h) (hy z hz)

theorem sortValuesBy_pairwise_custLT :
    ∀ l : List CustRowIn,
      (sortValuesBy custLT l).Pairwise (fun a b => custLT b a = false) := by
  intro l
  induction l with
  | nil => simp [sortValuesBy]
  | cons x xs ih => exact insertBy_pairwise_custLT x _ ih

theorem mem_sortValuesBy {α : Type} (lt : α → α → Bool) (a : α) :
    ∀ l : List α, a ∈ sortValuesBy lt l ↔ a ∈ l := by
  intro l
  induction l with
  | nil => simp [sortValuesBy]
  | cons x xs ih =>
      simp only [sortValuesBy, mem_insertBy, ih, List.mem_cons]

theorem find?_insertBy_pos (p : CustRowIn → Bool) (x : CustRowIn)
    (hpx : p x = true) :
    ∀ s : List CustRowIn,
      s.Pairwise (fun a b => custLT b a = false) →
      (insertBy custLT x s).find? p =
        (match s.find? p with
         | none => some x
         | some f => if custLT f x then some f else some x) := by
  intro s
  induction s with
  | nil => simp [insertBy, List.find?, hpx]
  | cons y ys ih =>
      intro hs
      rcases List.pairwise_cons.1 hs with ⟨hy, hys⟩
      simp only [insertBy]
      split_ifs with hlt
      · rcases hpy : p y with _ | _
        · simp only [List.find?, hpy]
          exact ih hys
        · simp only [List.find?, hpy, hlt, if_true]
      · rcases hf : List.find? p (y :: ys) with _ | f
        · simp [List.find?, hpx]
        · have hfx : custLT f x = false := by
            rcases List.mem_cons.1 (List.mem_of_find?_eq_some hf) with rfl | hmem
            · exact Bool.eq_false_iff.2 hlt
            · exact custLT_chain x y f (Bool.eq_false_iff.2 hlt) (hy f hmem)
          simp [List.find?, hpx, hfx]

theorem mem_dropDuplicates (r : CustRowIn) :
    ∀ (seen : List (Option ℤ)) (l : List CustRowIn),
      r ∈ dropDuplicatesKeepFirst seen l → r ∈ l := by
  intro seen l
  induction l generalizing seen with
  | nil => intro h; simp [dropDuplicatesKeepFirst] at h
  | cons s ss ih =>
      intro h
      simp only [dropDuplicatesKeepFirst] at h
      split_ifs at h with hseen
      · exact List.mem_cons_of_mem s (ih seen h)
      · rcases List.mem_cons.1 h with rfl | hmem
        · exact List.mem_cons_self _ _
        · exact List.mem_cons_of_mem _ (ih _ hmem)

theorem dropDuplicates_id_not_seen (r : CustRowIn) :
    ∀ (seen : List (Option ℤ)) (l : List CustRowIn),
      r ∈ dropDuplicatesKeepFirst seen l → r.cst_id ∉ seen := by
  intro seen l
  induction l generalizing seen with
  | nil => intro h; simp [dropDuplicatesKeepFirst] at h
  | cons s ss ih =>
      intro h
      simp only [dropDuplicatesKeepFirst] at h
      split_ifs at h with hseen
      · exact ih seen h
      · rcases List.mem_cons.1 h with rfl | hmem
        · exact hseen
        · intro hc
          exact ih _ hmem (List.mem_cons_of_mem _ hc)

theorem dropDuplicates_pairwise :
    ∀ (seen : List (Option ℤ)) (l : List CustRowIn),
      (dropDuplicatesKeepFirst seen l).Pairwise
        (fun a b => a.cst_id ≠ b.cst_id) := by
  intro seen l
  induction l generalizing seen with
  | nil => simp [dropDuplicatesKeepFirst]
  | cons s ss ih =>
      simp only [dropDuplicatesKeepFirst]
      split_ifs with hseen
      · exact ih seen
      · rw [List.pairwise_cons]
        refine ⟨?_, ih _⟩
        intro b hb hc
        exact dropDuplicates_id_not_seen b _ _ hb
          (hc ▸ List.mem_cons_self s.cst_id seen)

theorem find?_dropDuplicates (i : ℤ) :
    ∀ (seen : List (Option ℤ)) (l : List CustRowIn),
      some i ∉ seen →
      (dropDuplicatesKeepFirst seen l).find? (fun r => r.cst_id == some i) =
        l.find? (fun r => r.cst_id == some i) := by
  intro seen l
  induction l generalizing seen with
  | nil => intro _; rfl
  | cons s ss ih =>
      intro hni
      simp only [dropDuplicatesKeepFirst]
      split_ifs with hseen
      · have hps : (s.cst_id == some i) = false := by
          rcases hps : s.cst_id == some i with _ | _
          · rfl
          · exact absurd (beq_iff_eq.1 hps ▸ hseen) hni
        simp only [List.find?, hps]
        exact ih seen hni
      · rcases hps : s.cst_id == some i with _ | _
        · simp only [List.find?, hps]
          refine ih _ ?_
          intro hc
          rcases List.mem_cons.1 hc with he | hmem
          · rw [← he] at hps
            simp at hps
          · exact hni hmem
        · simp [List.find?, hps]

theorem find?_congrPred {α : Type} (p q : α → Bool) :
    ∀ l : List α, (∀ a ∈ l, p a = q a) → l.find? p = l.find? q := by
  intro l
  induction l with
  | nil => intro _; rfl
  | cons x xs ih =>
      intro h
      have hx := h x (List.mem_cons_self x xs)
      rcases hq : q x with _ | _
      · rw [hq] at hx
        simp only [List.find?, hx, hq]
        exact ih (fun a ha => h a (List.mem_cons_of_mem x ha))
      · rw [hq] at hx
        simp only [List.find?, hx, hq]

theorem sort_find?_eq_spec (i : ℤ) :
    ∀ l : List CustRowIn,
      (∀ r ∈ l, r.cst_id.isSome = true) →
      (sortValuesBy custLT l).find? (fun r => r.cst_id == some i) =
        specSurvivor i l := by
  intro l
  induction l with
  | nil => intro _; rfl
  | cons x l ih =>
      intro hsome
      have hsl : ∀ r ∈ l, r.cst_id.isSome = true :=
        fun r hr => hsome r (List.mem_cons_of_mem x hr)
      simp only [sortValuesBy]
      rcases hpx : (x.cst_id == some i) with _ | _
      · rw [find?_insertBy_of_neg custLT _ x hpx, ih hsl]
        have hfc : List.filter (fun r => r.cst_id == some i) (x :: l) =
            List.filter (fun r => r.cst_id == some i) l := by
          simp [List.filter_cons, hpx]
        simp only [specSurvivor]
        rw [hfc]
      · have hxid : x.cst_id = some i := beq_iff_eq.1 hpx
        rw [find?_insertBy_pos _ x hpx _ (sortValuesBy_pairwise_custLT l)]
        have hfcx : List.filter (fun r => r.cst_id == some i) (x :: l) =
            x :: List.filter (fun r => r.cst_id == some i) l := by
          simp [List.filter_cons, hpx]
        rcases hf : (sortValuesBy custLT l).find?
            (fun r => r.cst_id == some i) with _ | f
        · have hgl : l.filter (fun r => r.cst_id == some i) = [] := by
            rw [List.filter_eq_nil_iff]
            intro a ha
            have := List.find?_eq_none.1 hf a ((mem_sortValuesBy custLT a l).2 ha)
            simpa using this
          rw [hf]
          simp only [specSurvivor]
          rw [hfcx, hgl]
          simp [List.find?, List.all_cons, dateLEb_refl]
        · have hfspec : specSurvivor i l = some f := by rw [← ih hsl, hf]
          simp only [specSurvivor] at hfspec
          have hfgroup : f ∈ l.filter (fun r => r.cst_id == some i) :=
            List.mem_of_find?_eq_some hfspec
          have hfid : f.cst_id = some i := by
            have := List.of_mem_filter hfgroup
            simpa using this
          have hmax : ∀ s ∈ l.filter (fun r => r.cst_id == some i),
              dateLEb s.cst_create_date f.cst_create_date = true := by
            have := List.find?_some hfspec
            exact List.all_eq_true.1 this
          rcases hclt : custLT f x with _ | _
          · have hfx : dateLEb f.cst_create_date x.cst_create_date = true := by
              rcases hd : dateLEb f.cst_create_date x.cst_create_date with _ | _
              · exact absurd ((custLT_same_id f x i hfid hxid).2 hd)
                  (by rw [hclt]; simp)
              · rfl
            rw [hf]
            simp only [hclt, if_false]
            have hcondx : (x :: l.filter (fun r => r.cst_id == some i)).all
                (fun s => dateLEb s.cst_create_date x.cst_create_date) = true := by
              rw [List.all_eq_true]
              intro s hsmem
              rcases List.mem_cons.1 hsmem with rfl | hsmem
              · exact dateLEb_refl _
              · exact dateLEb_trans _ _ _ (hmax s hsmem) hfx
            simp only [specSurvivor]
            rw [hfcx]
            simp [List.find?, hcondx]
          · have hdfx : dateLEb f.cst_create_date x.cst_create_date = false :=
              (custLT_same_id f x i hfid hxid).1 hclt
            rw [hf]
            simp only [hclt, if_true]
            have hxf : dateLEb x.cst_create_date f.cst_create_date = true :=
              dateLEb_total _ _ hdfx
            have hcondx : (x :: l.filter (fun r => r.cst_id == some i)).all
                (fun s => dateLEb s.cst_create_date x.cst_create_date) = false := by
              rcases hall : (x :: l.filter (fun r => r.cst_id == some i)).all
                  (fun s => dateLEb s.cst_create_date x.cst_create_date) with _ | _
              · rfl
              · have := List.all_eq_true.1 hall f
                  (List.mem_cons_of_mem x hfgroup)
                rw [hdfx] at this
                exact absurd this (by simp)
            have hcong : ∀ r ∈ l.filter (fun s => s.cst_id == some i),
                (x :: l.filter (fun s => s.cst_id == some i)).all
                  (fun s => dateLEb s.cst_create_date r.cst_create_date) =
                (l.filter (fun s => s.cst_id == some i)).all
                  (fun s => dateLEb s.cst_create_date r.cst_create_date) := by
              intro r hr
              rcases hold : (l.filter (fun s => s.cst_id == some i)).all
                  (fun s => dateLEb s.cst_create_date r.cst_create_date) with _ | _
              · simp [List.all_cons, hold]
              · have hfr := List.all_eq_true.1 hold f hfgroup
                have hxr : dateLEb x.cst_create_date r.cst_create_date = true :=
                  dateLEb_trans _ _ _ hxf hfr
                simp [List.all_cons, hold, hxr]
            simp only [specSurvivor]
            rw [hfcx]
            simp only [List.find?, hcondx]
            rw [find?_congrPred _ _ _ hcong]
            exact hfspec.symm

theorem cleanCustStrings_id (r : CustRowIn) :
    (cleanCustStrings r).cst_id = r.cst_id := rfl

theorem specSurvivor_filter_isSome (i : ℤ) (rows : List CustRowIn) :
    specSurvivor i (rows.filter (fun r => r.cst_id.isSome)) =
      specSurvivor i rows := by
  have hfc : (rows.filter (fun r => r.cst_id.isSome)).filter
      (fun r => r.cst_id == some i) =
      rows.filter (fun r => r.cst_id == some i) := by
    rw [List.filter_filter]
    congr 1
    funext a
    rcases ha : a.cst_id with _ | v <;> simp [ha]
  simp only [specSurvivor]
  rw [hfc]

/-- **C5**: customer cleaning drops every null-id row; the cleaned
snapshot has no two rows with the same customer id; and the unique
survivor of each id is exactly the spec's: the row with the most recent
create date, ties broken by first-seen order (formalized by
`specSurvivor`, and preserved through the stable lexicographic sort that
models pandas `sort_values` + `drop_duplicates(keep="first")`).  In
particular, of two id-7 rows dated 2020-01-01 (day 737060) and 2021-01-01
(day 737426), only the 2021 row survives (in its text-cleaned form). -/
theorem claimC5_customer_dedup :
    (∀ (rows : List CustRowIn) (i : ℤ),
      (∀ r ∈ clean_crm_customer_info rows, r.cst_id.isSome = true) ∧
      (clean_crm_customer_info rows).Pairwise
        (fun a b => a.cst_id ≠ b.cst_id) ∧
      (clean_crm_customer_info rows).find? (fun r => r.cst_id == some i) =
        (specSurvivor i rows).map cleanCustStrings) ∧
    clean_crm_customer_info
        [⟨some 7, "k1".toList, some "Ann".toList, some "A".toList,
          some "m".toList, some "f".toList, some 737060⟩,
         ⟨some 7, "k2".toList, some "Bea".toList, some "B".toList,
          some "s".toList, some "M".toList, some 737426⟩] =
      [⟨some 7, "k2".toList, some "Bea".toList, some "B".toList,
        "Single".toList, "Male".toList, some 737426⟩] := by
  constructor
  · intro rows i
    refine ⟨?_, ?_, ?_⟩
    · intro r hr
      simp only [clean_crm_customer_info] at hr
      obtain ⟨s, hs, rfl⟩ := List.mem_map.1 hr
      rw [cleanCustStrings_id]
      have h1 := mem_dropDuplicates s [] _ hs
      have h2 := (mem_sortValuesBy custLT s _).1 h1
      simpa using List.of_mem_filter h2
    · simp only [clean_crm_customer_info]
      rw [List.pairwise_map]
      have := dropDuplicates_pairwise []
        (sortValuesBy custLT (rows.filter (fun r => r.cst_id.isSome)))
      refine this.imp ?_
      intro a b hab
      simpa [cleanCustStrings_id] using hab
    · simp only [clean_crm_customer_info]
      rw [List.find?_map]
      have hpred : ((fun r : CustRowOut => r.cst_id == some i) ∘
          cleanCustStrings) = (fun r : CustRowIn => r.cst_id == some i) := by
        funext r
        simp [Function.comp, cleanCustStrings_id]
      rw [hpred]
      rw [find?_dropDuplicates i [] _ (by simp)]
      rw [sort_find?_eq_spec i _
        (fun r hr => by simpa using List.of_mem_filter hr)]
      rw [specSurvivor_filter_isSome]
  · decide
